import Mathlib

/-!
Shallow embedding of the `paired-binary` repository (Rust sources under
`src/`): the error enumeration (`src/error.rs`), the validated base
pattern (`src/pattern.rs`), the paired-entity constructors
(`src/entity.rs`) and the hierarchical propagation operations
(`src/propagator.rs`).  Rust `BigUint` values are modelled as `Nat`,
`HashSet<BigUint>` as `Finset Nat`, fallible functions as `Except`.
The Rust internal helpers recurse on the current bit-width by halving;
that recursion is general (it does not terminate on inputs that are
rejected by the public entry points), so the helpers take an explicit
fuel argument; the public entry points pass fuel that is proved more
than sufficient for every input that passes their validation.
-/

set_option linter.unusedVariables false

deriving instance DecidableEq for Except

/-- Error enumeration of the library, mirroring `HierarchyError` in
`src/error.rs` (payload values carried as `Nat`). -/
inductive HierarchyError where
  | NonPositiveNBits (n : Nat)
  | EmptySBaseValues
  | ValueExceedsNBaseBits (value : Nat) (n_bits : Nat) (max_val : Nat)
  | TargetNBitsTooSmall (target_n_bits : Nat) (base_n_bits : Nat)
  | InvalidHierarchicalLevel (target_n_bits : Nat) (base_n_bits : Nat)
  | ValueTooLargeForNBits (value : Nat) (n_bits : Nat)
  | NotAMember (value : Nat)
  | InvalidBaseComponent (value : Nat)
  | InvalidComponentCount (n : Nat)
  | DecompositionLimitReached (half_n_bits : Nat) (base_n_bits : Nat)
  | NonComplementaryPair (val1 : Nat) (val2_complement : Nat) (n_bits : Nat)
  | EmptySBaseForRandomGeneration
deriving DecidableEq, Repr

/-- The base pattern `S_base`, mirroring `InitialPattern` in
`src/pattern.rs`: a set of base-width values and the base bit-width. -/
structure InitialPattern where
  s_base_values : Finset Nat
  n_base_bits : Nat
deriving DecidableEq

/-- The invariant established by the validating constructor
`InitialPattern::new` in `src/pattern.rs`: the width is positive, the
set is non-empty, and every member fits in `n_base_bits` bits. -/
def InitialPattern.Validated (p : InitialPattern) : Prop :=
  0 < p.n_base_bits ∧ p.s_base_values.Nonempty ∧
    ∀ v ∈ p.s_base_values, v < 2 ^ p.n_base_bits

instance (p : InitialPattern) : Decidable p.Validated := by
  unfold InitialPattern.Validated; infer_instance

/-- The propagation engine, mirroring `Propagator` in
`src/propagator.rs`: it holds one `InitialPattern`. -/
structure Propagator where
  initial_pattern : InitialPattern
deriving DecidableEq

/-- Embedding of Rust `usize::is_power_of_two` (used by the source via
`factor.is_power_of_two()` and `num_components.is_power_of_two()`):
true exactly when the argument equals `2 ^ k` for some `k`, hence false
at `0`.  Implemented as a bounded search so that it evaluates inside
the kernel. -/
def is_power_of_two (n : Nat) : Bool :=
  (List.range (n + 1)).any (fun k => n == 2 ^ k)

/-- Embedding of `Propagator::is_valid_hierarchical_level`
(src/propagator.rs lines 32-47), branch for branch. -/
def Propagator.is_valid_hierarchical_level (P : Propagator) (target_n_bits : Nat) : Bool :=
  let base_n_bits := P.initial_pattern.n_base_bits
  if target_n_bits < base_n_bits then false
  else if target_n_bits = base_n_bits then true
  else if base_n_bits = 0 then false
  else if target_n_bits % base_n_bits ≠ 0 then false
  else is_power_of_two (target_n_bits / base_n_bits)

/-- Embedding of `Propagator::_is_member_recursive` (src/propagator.rs
lines 81-96) with an explicit fuel argument (first argument); the Rust
helper recurses on the halved width with no structural bound. -/
def Propagator.is_member_recursive (P : Propagator) : Nat → Nat → Nat → Bool
  | 0, _, _ => false
  | fuel + 1, x_current, n_current_bits =>
    if n_current_bits = P.initial_pattern.n_base_bits then
      decide (x_current ∈ P.initial_pattern.s_base_values)
    else
      let n_half_bits := n_current_bits / 2
      let mask := (1 <<< n_half_bits) - 1
      let h_upper := x_current >>> n_half_bits
      let h_lower := x_current &&& mask
      P.is_member_recursive fuel h_upper n_half_bits &&
      P.is_member_recursive fuel h_lower n_half_bits

/-- Embedding of `Propagator::is_member` (src/propagator.rs lines
51-79): the `n == 0` check, then the range check, then the
level-validity check, then the recursive descent. -/
def Propagator.is_member (P : Propagator) (x_target : Nat) (n_target_bits : Nat) :
    Except HierarchyError Bool :=
  if n_target_bits = 0 then
    .error (.InvalidHierarchicalLevel n_target_bits P.initial_pattern.n_base_bits)
  else if (1 <<< n_target_bits) ≤ x_target then
    .error (.ValueTooLargeForNBits x_target n_target_bits)
  else if ¬ P.is_valid_hierarchical_level n_target_bits then
    .error (.InvalidHierarchicalLevel n_target_bits P.initial_pattern.n_base_bits)
  else
    .ok (P.is_member_recursive (n_target_bits + 1) x_target n_target_bits)

/-- Embedding of `Propagator::_decompose_recursive_collect`
(src/propagator.rs lines 110-125) with fuel; the Rust accumulator
`&mut Vec` push order is modelled by list append, upper half first. -/
def Propagator.decompose_recursive_collect (P : Propagator) : Nat → Nat → Nat → List Nat
  | 0, _, _ => []
  | fuel + 1, current_x, current_n_bits =>
    if current_n_bits = P.initial_pattern.n_base_bits then
      [current_x]
    else
      let n_half_bits := current_n_bits / 2
      let mask := (1 <<< n_half_bits) - 1
      let h_upper := current_x >>> n_half_bits
      let h_lower := current_x &&& mask
      P.decompose_recursive_collect fuel h_upper n_half_bits ++
      P.decompose_recursive_collect fuel h_lower n_half_bits

/-- Embedding of `Propagator::decompose_to_base` (src/propagator.rs
lines 100-108). -/
def Propagator.decompose_to_base (P : Propagator) (x_target : Nat) (n_target_bits : Nat) :
    Except HierarchyError (List Nat) :=
  match P.is_member x_target n_target_bits with
  | .error e => .error e
  | .ok false => .error (.NotAMember x_target)
  | .ok true => .ok (P.decompose_recursive_collect (n_target_bits + 1) x_target n_target_bits)

/-- Embedding of the validation loop at the head of
`Propagator::compose_from_base` (src/propagator.rs lines 137-149): for
each component in order, the set-membership check and then the range
check; the first failure wins. -/
def Propagator.check_components (P : Propagator) : List Nat → Option HierarchyError
  | [] => none
  | comp :: rest =>
    if comp ∉ P.initial_pattern.s_base_values then
      some (.InvalidBaseComponent comp)
    else if (1 <<< P.initial_pattern.n_base_bits) ≤ comp then
      some (.ValueExceedsNBaseBits comp P.initial_pattern.n_base_bits
        ((1 <<< P.initial_pattern.n_base_bits) - 1))
    else P.check_components rest

/-- Embedding of `Propagator::_compose_recursive` (src/propagator.rs
lines 154-167) with fuel: length-one slice returns the component at
base width, otherwise split at the midpoint, compose both halves, and
combine as `(upper <<< upper_bits) ||| lower` at doubled width. -/
def Propagator.compose_recursive (P : Propagator) : Nat → List Nat → Nat × Nat
  | 0, _ => (0, 0)
  | fuel + 1, components_slice =>
    if components_slice.length = 1 then
      (components_slice.headD 0, P.initial_pattern.n_base_bits)
    else
      let mid := components_slice.length / 2
      let upper := P.compose_recursive fuel (components_slice.take mid)
      let lower := P.compose_recursive fuel (components_slice.drop mid)
      ((upper.1 <<< upper.2) ||| lower.1, upper.2 * 2)

/-- Embedding of `Propagator::compose_from_base` (src/propagator.rs
lines 128-152). -/
def Propagator.compose_from_base (P : Propagator) (s_base_components : List Nat) :
    Except HierarchyError (Nat × Nat) :=
  let num_components := s_base_components.length
  if num_components = 0 ∨ is_power_of_two num_components = false then
    .error (.InvalidComponentCount s_base_components.length)
  else
    match P.check_components s_base_components with
    | some e => .error e
    | none => .ok (P.compose_recursive s_base_components.length s_base_components)

/-- Model of `SliceRandom::choose` applied to the vector collected from
the base set (src/propagator.rs lines 186-187): the randomness source
supplies a draw, and the element at index `draw % length` of the given
enumeration `order` of the base set is returned.  The enumeration order
of the Rust `HashSet` is not determined by the set itself, so it is an
explicit parameter of the model. -/
def Propagator.choose_base (P : Propagator) (order : List Nat) (draw : Nat) : Nat :=
  order.getD (draw % order.length) 0

/-- Embedding of `Propagator::_generate_random_recursive`
(src/propagator.rs lines 184-195) with fuel.  The mutable `rng` is
modelled by an infinite stream `src` of draws together with a cursor
position threaded through the recursion (base case consumes one draw);
the result pairs the generated value with the final cursor. -/
def Propagator.generate_random_recursive (P : Propagator) (order : List Nat)
    (src : Nat → Nat) : Nat → Nat → Nat → Nat × Nat
  | 0, _, pos => (0, pos)
  | fuel + 1, current_n_bits, pos =>
    if current_n_bits = P.initial_pattern.n_base_bits then
      (P.choose_base order (src pos), pos + 1)
    else
      let n_half_bits := current_n_bits / 2
      let upper := P.generate_random_recursive order src fuel n_half_bits pos
      let lower := P.generate_random_recursive order src fuel n_half_bits upper.2
      ((upper.1 <<< n_half_bits) ||| lower.1, lower.2)

/-- Embedding of `Propagator::generate_random_s_n_member`
(src/propagator.rs lines 170-182): level check, then the defensive
non-emptiness check, then the recursive sampling. -/
def Propagator.generate_random_s_n_member (P : Propagator) (order : List Nat)
    (target_n_bits : Nat) (src : Nat → Nat) (pos : Nat) :
    Except HierarchyError (Nat × Nat) :=
  if ¬ P.is_valid_hierarchical_level target_n_bits then
    .error (.InvalidHierarchicalLevel target_n_bits P.initial_pattern.n_base_bits)
  else if P.initial_pattern.s_base_values = ∅ then
    .error .EmptySBaseForRandomGeneration
  else
    .ok (P.generate_random_recursive order src (target_n_bits + 1) target_n_bits pos)

/-- The paired entity, mirroring `PairedEntity` in `src/entity.rs`. -/
structure PairedEntity where
  x : Nat
  x_prime : Nat
  n_bits : Nat
deriving DecidableEq, Repr

/-- Embedding of `PairedEntity::new` (src/entity.rs lines 30-48). -/
def PairedEntity.new (x : Nat) (n_bits : Nat) : Except HierarchyError PairedEntity :=
  if n_bits = 0 then .error (.NonPositiveNBits n_bits)
  else
    let limit_exclusive := 1 <<< n_bits
    if limit_exclusive ≤ x then .error (.ValueTooLargeForNBits x n_bits)
    else
      let all_ones := limit_exclusive - 1
      .ok ⟨x, all_ones - x, n_bits⟩

/-- Embedding of `PairedEntity::new_canonical_from_x` (src/entity.rs
lines 59-78). -/
def PairedEntity.new_canonical_from_x (value : Nat) (n_bits : Nat) :
    Except HierarchyError PairedEntity :=
  if n_bits = 0 then .error (.NonPositiveNBits n_bits)
  else
    let limit_exclusive := 1 <<< n_bits
    if limit_exclusive ≤ value then .error (.ValueTooLargeForNBits value n_bits)
    else
      let all_ones := limit_exclusive - 1
      let complement := all_ones - value
      if value ≤ complement then .ok ⟨value, complement, n_bits⟩
      else .ok ⟨complement, value, n_bits⟩

/-- Embedding of `PairedEntity::new_from_pair_assert_canonical`
(src/entity.rs lines 93-126). -/
def PairedEntity.new_from_pair_assert_canonical (val1 : Nat)
    (val2_supposed_complement : Nat) (n_bits : Nat) :
    Except HierarchyError PairedEntity :=
  if n_bits = 0 then .error (.NonPositiveNBits n_bits)
  else
    let limit_exclusive := 1 <<< n_bits
    if limit_exclusive ≤ val1 then .error (.ValueTooLargeForNBits val1 n_bits)
    else if limit_exclusive ≤ val2_supposed_complement then
      .error (.ValueTooLargeForNBits val2_supposed_complement n_bits)
    else
      let all_ones := limit_exclusive - 1
      if val1 + val2_supposed_complement ≠ all_ones then
        .error (.NonComplementaryPair val1 val2_supposed_complement n_bits)
      else if val1 ≤ val2_supposed_complement then
        .ok ⟨val1, val2_supposed_complement, n_bits⟩
      else
        .ok ⟨val2_supposed_complement, val1, n_bits⟩

/-- The worked-example pattern of the spec: `n_base_bits = 2`,
`s_base = {0, 3}`. -/
def examplePattern : InitialPattern := ⟨{0, 3}, 2⟩

/-- Propagator over `examplePattern`. -/
def exampleProp : Propagator := ⟨examplePattern⟩

/-- A base-width-4 pattern used for the level-validity examples. -/
def examplePatternB4 : InitialPattern := ⟨{1}, 4⟩

/-- Propagator over `examplePatternB4`. -/
def examplePropB4 : Propagator := ⟨examplePatternB4⟩

/-- The reference membership predicate of the spec (C2): direct
base-set membership at the base width; otherwise membership of both
halves at width `n / 2`. -/
inductive MemberProp (P : Propagator) : Nat → Nat → Prop where
  | base (x : Nat) (hx : x ∈ P.initial_pattern.s_base_values) :
      MemberProp P x P.initial_pattern.n_base_bits
  | node (x n : Nat) (hn : n ≠ P.initial_pattern.n_base_bits)
      (hu : MemberProp P (x >>> (n / 2)) (n / 2))
      (hl : MemberProp P (x &&& (1 <<< (n / 2)) - 1) (n / 2)) :
      MemberProp P x n

/-- The spec view of decomposition (C6): the ordered list of the `m`
base-width chunks of `x`, most significant chunk first. -/
def bigEndChunks (b m x : Nat) : List Nat :=
  (List.range m).map (fun i => x / 2 ^ (b * (m - 1 - i)) % 2 ^ b)

/-- The invariant of `PairedEntity` stated in the spec (C8). -/
def PairedEntity.Invariant (e : PairedEntity) : Prop :=
  e.x < 2 ^ e.n_bits ∧ e.x_prime < 2 ^ e.n_bits ∧ e.x + e.x_prime = 2 ^ e.n_bits - 1

/-! ### Arithmetic bridges between the bit operations of the source and
division / remainder arithmetic. -/

theorem and_one_shiftLeft_sub_one (x n : Nat) : x &&& (1 <<< n) - 1 = x % 2 ^ n := by
  rw [Nat.one_shiftLeft, Nat.and_pow_two_sub_one_eq_mod]

theorem lor_mul_two_pow_add (n a b : Nat) (hb : b < 2 ^ n) :
    (a <<< n) ||| b = a * 2 ^ n + b := by
  rw [Nat.shiftLeft_eq]
  induction n generalizing b with
  | zero =>
    interval_cases b
    simp
  | succ n ih =>
    have hX : a * 2 ^ (n + 1) = (a * 2 ^ n) * 2 := by ring
    have h1 : ((a * 2 ^ (n + 1)) ||| b) / 2 = (a * 2 ^ n) ||| (b / 2) := by
      rw [Nat.or_div_two, hX, Nat.mul_div_cancel _ (by omega)]
    have hX2 : (a * 2 ^ (n + 1)) % 2 = 0 := by omega
    have h2 : ((a * 2 ^ (n + 1)) ||| b) % 2 = b % 2 := by
      rcases Nat.mod_two_eq_zero_or_one b with hb2 | hb2
      · rcases Nat.mod_two_eq_zero_or_one ((a * 2 ^ (n + 1)) ||| b) with h | h
        · omega
        · rw [Nat.or_mod_two_eq_one] at h
          omega
      · rw [hb2, Nat.or_mod_two_eq_one]
        omega
    have hb2 : b / 2 < 2 ^ n := by
      have : 2 ^ (n + 1) = 2 ^ n * 2 := by ring
      omega
    have hrec := ih (b / 2) hb2
    have hdm := Nat.div_add_mod ((a * 2 ^ (n + 1)) ||| b) 2
    have hbdm := Nat.div_add_mod b 2
    have h2n : (2 : Nat) ^ (n + 1) = 2 ^ n * 2 := by ring
    omega

theorem div_two_pow_lor_mod (x n : Nat) : ((x / 2 ^ n) <<< n) ||| (x % 2 ^ n) = x := by
  rw [lor_mul_two_pow_add n _ _ (Nat.mod_lt _ (Nat.two_pow_pos n)), Nat.mul_comm]
  exact Nat.div_add_mod x (2 ^ n)

theorem mul_two_pow_add_div (n u l : Nat) (hl : l < 2 ^ n) :
    (u * 2 ^ n + l) / 2 ^ n = u := by
  rw [Nat.mul_comm, Nat.mul_add_div (Nat.two_pow_pos n), Nat.div_eq_of_lt hl]
  omega

theorem mul_two_pow_add_mod (n u l : Nat) (hl : l < 2 ^ n) :
    (u * 2 ^ n + l) % 2 ^ n = l := by
  rw [Nat.mul_comm, Nat.mul_add_mod, Nat.mod_eq_of_lt hl]

theorem mul_two_pow_add_lt (n u l : Nat) (hu : u < 2 ^ n) (hl : l < 2 ^ n) :
    u * 2 ^ n + l < 2 ^ (n + n) := by
  have h1 : u * 2 ^ n + l < (u + 1) * 2 ^ n := by
    have := Nat.two_pow_pos n
    nlinarith
  have h2 : (u + 1) * 2 ^ n ≤ 2 ^ n * 2 ^ n := by
    have : u + 1 ≤ 2 ^ n := hu
    nlinarith
  calc u * 2 ^ n + l < (u + 1) * 2 ^ n := h1
    _ ≤ 2 ^ n * 2 ^ n := h2
    _ = 2 ^ (n + n) := by rw [Nat.pow_add]

theorem div_two_pow_lt (x n : Nat) (hx : x < 2 ^ (n + n)) : x / 2 ^ n < 2 ^ n := by
  rw [Nat.div_lt_iff_lt_mul (Nat.two_pow_pos n), ← Nat.pow_add]
  exact hx

/-! ### Characterization of `is_power_of_two` and of the level-validity
predicate. -/

theorem is_power_of_two_iff (n : Nat) : is_power_of_two n = true ↔ ∃ k, n = 2 ^ k := by
  unfold is_power_of_two
  rw [List.any_eq_true]
  constructor
  · rintro ⟨k, _, hk⟩
    exact ⟨k, by simpa using hk⟩
  · rintro ⟨k, hk⟩
    refine ⟨k, List.mem_range.mpr ?_, by simpa using hk⟩
    have := Nat.lt_two_pow k
    omega

theorem is_valid_hierarchical_level_iff (P : Propagator) (T : Nat) :
    P.is_valid_hierarchical_level T = true ↔
      ∃ k, T = P.initial_pattern.n_base_bits * 2 ^ k := by
  unfold Propagator.is_valid_hierarchical_level
  set b := P.initial_pattern.n_base_bits with hb
  by_cases hlt : T < b
  · simp only [hlt, if_true]
    constructor
    · intro h; cases h
    · rintro ⟨k, rfl⟩
      have := Nat.two_pow_pos k
      have : b * 1 ≤ b * 2 ^ k := Nat.mul_le_mul_left b (by omega)
      omega
  · simp only [hlt, if_false]
    by_cases heq : T = b
    · simp only [heq, if_true]
      exact ⟨fun _ => ⟨0, by omega⟩, fun _ => trivial⟩
    · simp only [heq, if_false]
      by_cases hb0 : b = 0
      · simp only [hb0, if_true]
        constructor
        · intro h; cases h
        · rintro ⟨k, rfl⟩
          exact absurd (by simp [hb0]) heq
      · simp only [hb0, if_false]
        by_cases hmod : T % b ≠ 0
        · rw [if_pos hmod]
          constructor
          · intro h; cases h
          · rintro ⟨k, rfl⟩
            exact absurd (Nat.mul_mod_right b (2 ^ k)) hmod
        · rw [if_neg hmod]
          push_neg at hmod
          rw [is_power_of_two_iff]
          constructor
          · rintro ⟨j, hj⟩
            refine ⟨j, ?_⟩
            rw [← hj]
            have := Nat.div_add_mod T b
            omega
          · rintro ⟨k, rfl⟩
            exact ⟨k, Nat.mul_div_cancel_left _ (by omega)⟩

theorem valid_level_exists (P : Propagator) (T : Nat)
    (h : P.is_valid_hierarchical_level T = true) :
    ∃ k, T = P.initial_pattern.n_base_bits * 2 ^ k :=
  (is_valid_hierarchical_level_iff P T).mp h

theorem valid_level_of_exp (P : Propagator) (k : Nat) :
    P.is_valid_hierarchical_level (P.initial_pattern.n_base_bits * 2 ^ k) = true :=
  (is_valid_hierarchical_level_iff P _).mpr ⟨k, rfl⟩

theorem level_succ_ne_base (b k : Nat) (hb : 0 < b) : b * 2 ^ (k + 1) ≠ b := by
  have h2 : (2 : Nat) ≤ 2 ^ (k + 1) := by
    have := Nat.one_le_two_pow (n := k)
    rw [Nat.pow_succ]
    omega
  nlinarith

theorem level_succ_half (b k : Nat) : b * 2 ^ (k + 1) / 2 = b * 2 ^ k := by
  rw [Nat.pow_succ, ← Nat.mul_assoc, Nat.mul_div_cancel _ (by omega)]

theorem lt_exp_fuel (b k : Nat) (hb : 0 < b) : k < b * 2 ^ k + 1 := by
  have h1 : k < 2 ^ k := Nat.lt_two_pow k
  have h2 : 2 ^ k ≤ b * 2 ^ k := by nlinarith [Nat.two_pow_pos k]
  omega

/-! ### Unfolding equations of the fuelled helpers. -/

theorem is_member_recursive_base (P : Propagator) (f x : Nat) :
    P.is_member_recursive (f + 1) x P.initial_pattern.n_base_bits =
      decide (x ∈ P.initial_pattern.s_base_values) := by
  simp [Propagator.is_member_recursive]

theorem is_member_recursive_node (P : Propagator) (f x n : Nat)
    (hn : n ≠ P.initial_pattern.n_base_bits) :
    P.is_member_recursive (f + 1) x n =
      (P.is_member_recursive f (x >>> (n / 2)) (n / 2) &&
       P.is_member_recursive f (x &&& (1 <<< (n / 2)) - 1) (n / 2)) := by
  simp [Propagator.is_member_recursive, hn]

theorem decompose_recursive_collect_base (P : Propagator) (f x : Nat) :
    P.decompose_recursive_collect (f + 1) x P.initial_pattern.n_base_bits = [x] := by
  simp [Propagator.decompose_recursive_collect]

theorem decompose_recursive_collect_node (P : Propagator) (f x n : Nat)
    (hn : n ≠ P.initial_pattern.n_base_bits) :
    P.decompose_recursive_collect (f + 1) x n =
      P.decompose_recursive_collect f (x >>> (n / 2)) (n / 2) ++
      P.decompose_recursive_collect f (x &&& (1 <<< (n / 2)) - 1) (n / 2) := by
  simp [Propagator.decompose_recursive_collect, hn]

theorem generate_random_recursive_base (P : Propagator) (order : List Nat)
    (src : Nat → Nat) (f pos : Nat) :
    P.generate_random_recursive order src (f + 1) P.initial_pattern.n_base_bits pos =
      (P.choose_base order (src pos), pos + 1) := by
  simp [Propagator.generate_random_recursive]

theorem generate_random_recursive_node (P : Propagator) (order : List Nat)
    (src : Nat → Nat) (f n pos : Nat) (hn : n ≠ P.initial_pattern.n_base_bits) :
    P.generate_random_recursive order src (f + 1) n pos =
      (((P.generate_random_recursive order src f (n / 2) pos).1 <<< (n / 2)) |||
        (P.generate_random_recursive order src f (n / 2)
          (P.generate_random_recursive order src f (n / 2) pos).2).1,
       (P.generate_random_recursive order src f (n / 2)
          (P.generate_random_recursive order src f (n / 2) pos).2).2) := by
  simp [Propagator.generate_random_recursive, hn]

theorem compose_recursive_one (P : Propagator) (f : Nat) (cs : List Nat)
    (h : cs.length = 1) :
    P.compose_recursive (f + 1) cs = (cs.headD 0, P.initial_pattern.n_base_bits) := by
  simp [Propagator.compose_recursive, h]

theorem compose_recursive_split (P : Propagator) (f : Nat) (cs : List Nat)
    (h : cs.length ≠ 1) :
    P.compose_recursive (f + 1) cs =
      (((P.compose_recursive f (cs.take (cs.length / 2))).1 <<<
          (P.compose_recursive f (cs.take (cs.length / 2))).2) |||
        (P.compose_recursive f (cs.drop (cs.length / 2))).1,
       (P.compose_recursive f (cs.take (cs.length / 2))).2 * 2) := by
  simp [Propagator.compose_recursive, h]

/-! ### Fuel independence: at a valid level `n_base_bits * 2 ^ k`, any
fuel beyond `k` computes the same result, which is the content of the
termination of the Rust helpers after `k` halvings. -/

theorem is_member_recursive_fuel (P : Propagator)
    (hb : 0 < P.initial_pattern.n_base_bits) :
    ∀ k x f g, k < f → k < g →
      P.is_member_recursive f x (P.initial_pattern.n_base_bits * 2 ^ k) =
      P.is_member_recursive g x (P.initial_pattern.n_base_bits * 2 ^ k) := by
  intro k
  induction k with
  | zero =>
    intro x f g hf hg
    obtain ⟨f, rfl⟩ : ∃ m, f = m + 1 := ⟨f - 1, by omega⟩
    obtain ⟨g, rfl⟩ : ∃ m, g = m + 1 := ⟨g - 1, by omega⟩
    rw [pow_zero, Nat.mul_one, is_member_recursive_base, is_member_recursive_base]
  | succ k ih =>
    intro x f g hf hg
    obtain ⟨f, rfl⟩ : ∃ m, f = m + 1 := ⟨f - 1, by omega⟩
    obtain ⟨g, rfl⟩ : ∃ m, g = m + 1 := ⟨g - 1, by omega⟩
    rw [is_member_recursive_node _ _ _ _ (level_succ_ne_base _ _ hb),
        is_member_recursive_node _ _ _ _ (level_succ_ne_base _ _ hb),
        level_succ_half]
    rw [ih _ f g (by omega) (by omega), ih _ f g (by omega) (by omega)]

theorem decompose_recursive_collect_fuel (P : Propagator)
    (hb : 0 < P.initial_pattern.n_base_bits) :
    ∀ k x f g, k < f → k < g →
      P.decompose_recursive_collect f x (P.initial_pattern.n_base_bits * 2 ^ k) =
      P.decompose_recursive_collect g x (P.initial_pattern.n_base_bits * 2 ^ k) := by
  intro k
  induction k with
  | zero =>
    intro x f g hf hg
    obtain ⟨f, rfl⟩ : ∃ m, f = m + 1 := ⟨f - 1, by omega⟩
    obtain ⟨g, rfl⟩ : ∃ m, g = m + 1 := ⟨g - 1, by omega⟩
    rw [pow_zero, Nat.mul_one, decompose_recursive_collect_base,
      decompose_recursive_collect_base]
  | succ k ih =>
    intro x f g hf hg
    obtain ⟨f, rfl⟩ : ∃ m, f = m + 1 := ⟨f - 1, by omega⟩
    obtain ⟨g, rfl⟩ : ∃ m, g = m + 1 := ⟨g - 1, by omega⟩
    rw [decompose_recursive_collect_node _ _ _ _ (level_succ_ne_base _ _ hb),
        decompose_recursive_collect_node _ _ _ _ (level_succ_ne_base _ _ hb),
        level_succ_half]
    rw [ih _ f g (by omega) (by omega), ih _ f g (by omega) (by omega)]

theorem generate_random_recursive_fuel (P : Propagator)
    (hb : 0 < P.initial_pattern.n_base_bits) (order : List Nat) (src : Nat → Nat) :
    ∀ k pos f g, k < f → k < g →
      P.generate_random_recursive order src f (P.initial_pattern.n_base_bits * 2 ^ k) pos =
      P.generate_random_recursive order src g (P.initial_pattern.n_base_bits * 2 ^ k) pos := by
  intro k
  induction k with
  | zero =>
    intro pos f g hf hg
    obtain ⟨f, rfl⟩ : ∃ m, f = m + 1 := ⟨f - 1, by omega⟩
    obtain ⟨g, rfl⟩ : ∃ m, g = m + 1 := ⟨g - 1, by omega⟩
    rw [pow_zero, Nat.mul_one, generate_random_recursive_base,
      generate_random_recursive_base]
  | succ k ih =>
    intro pos f g hf hg
    obtain ⟨f, rfl⟩ : ∃ m, f = m + 1 := ⟨f - 1, by omega⟩
    obtain ⟨g, rfl⟩ : ∃ m, g = m + 1 := ⟨g - 1, by omega⟩
    rw [generate_random_recursive_node _ _ _ _ _ _ (level_succ_ne_base _ _ hb),
        generate_random_recursive_node _ _ _ _ _ _ (level_succ_ne_base _ _ hb),
        level_succ_half]
    rw [ih pos f g (by omega) (by omega)]
    rw [ih _ f g (by omega) (by omega)]

theorem compose_recursive_fuel (P : Propagator) :
    ∀ k (cs : List Nat) f g, k < f → k < g → cs.length = 2 ^ k →
      P.compose_recursive f cs = P.compose_recursive g cs := by
  intro k
  induction k with
  | zero =>
    intro cs f g hf hg hlen
    obtain ⟨f, rfl⟩ : ∃ m, f = m + 1 := ⟨f - 1, by omega⟩
    obtain ⟨g, rfl⟩ : ∃ m, g = m + 1 := ⟨g - 1, by omega⟩
    rw [compose_recursive_one _ _ _ (by simpa using hlen),
      compose_recursive_one _ _ _ (by simpa using hlen)]
  | succ k ih =>
    intro cs f g hf hg hlen
    obtain ⟨f, rfl⟩ : ∃ m, f = m + 1 := ⟨f - 1, by omega⟩
    obtain ⟨g, rfl⟩ : ∃ m, g = m + 1 := ⟨g - 1, by omega⟩
    have h2 : (2 : Nat) ^ (k + 1) = 2 ^ k * 2 := by ring
    have hne : cs.length ≠ 1 := by
      have := Nat.two_pow_pos k
      omega
    have hmid : cs.length / 2 = 2 ^ k := by omega
    have htake : (cs.take (cs.length / 2)).length = 2 ^ k := by
      rw [List.length_take]
      omega
    have hdrop : (cs.drop (cs.length / 2)).length = 2 ^ k := by
      rw [List.length_drop]
      omega
    rw [compose_recursive_split _ _ _ hne, compose_recursive_split _ _ _ hne]
    rw [ih _ f g (by omega) (by omega) htake, ih _ f g (by omega) (by omega) hdrop]

/-! ### The reference membership predicate of the spec: direct base-set
membership at the base width, and membership of both halves at width
`T / 2` otherwise. -/

theorem memberProp_elim (P : Propagator) {x n : Nat} (h : MemberProp P x n) :
    (n = P.initial_pattern.n_base_bits ∧ x ∈ P.initial_pattern.s_base_values) ∨
    (n ≠ P.initial_pattern.n_base_bits ∧
      MemberProp P (x >>> (n / 2)) (n / 2) ∧
      MemberProp P (x &&& (1 <<< (n / 2)) - 1) (n / 2)) := by
  cases h with
  | base x hx => exact .inl ⟨rfl, hx⟩
  | node x n hn hu hl => exact .inr ⟨hn, hu, hl⟩

theorem is_member_recursive_iff (P : Propagator)
    (hb : 0 < P.initial_pattern.n_base_bits) :
    ∀ k x f, k < f →
      (P.is_member_recursive f x (P.initial_pattern.n_base_bits * 2 ^ k) = true ↔
        MemberProp P x (P.initial_pattern.n_base_bits * 2 ^ k)) := by
  intro k
  induction k with
  | zero =>
    intro x f hf
    obtain ⟨f, rfl⟩ : ∃ m, f = m + 1 := ⟨f - 1, by omega⟩
    rw [pow_zero, Nat.mul_one, is_member_recursive_base, decide_eq_true_iff]
    constructor
    · exact fun hx => MemberProp.base x hx
    · intro h
      rcases memberProp_elim P h with ⟨_, hx⟩ | ⟨hn, _, _⟩
      · exact hx
      · exact absurd rfl hn
  | succ k ih =>
    intro x f hf
    obtain ⟨f, rfl⟩ : ∃ m, f = m + 1 := ⟨f - 1, by omega⟩
    rw [is_member_recursive_node _ _ _ _ (level_succ_ne_base _ _ hb), Bool.and_eq_true]
    constructor
    · rintro ⟨hu, hl⟩
      refine MemberProp.node x _ (level_succ_ne_base _ _ hb) ?_ ?_ <;>
        rw [level_succ_half]
      · rw [level_succ_half] at hu
        exact (ih _ f (by omega)).mp hu
      · rw [level_succ_half] at hl
        exact (ih _ f (by omega)).mp hl
    · intro h
      rcases memberProp_elim P h with ⟨hn, _⟩ | ⟨_, hu, hl⟩
      · exact absurd hn (level_succ_ne_base _ _ hb)
      · rw [level_succ_half] at hu hl ⊢
        exact ⟨(ih _ f (by omega)).mpr hu, (ih _ f (by omega)).mpr hl⟩

/-! ### The component validation loop accepts lists of base members. -/

theorem check_components_none (P : Propagator)
    (hP : P.initial_pattern.Validated) :
    ∀ cs : List Nat, (∀ c ∈ cs, c ∈ P.initial_pattern.s_base_values) →
      P.check_components cs = none := by
  intro cs hcs
  induction cs with
  | nil => rfl
  | cons c rest ih =>
    have hc : c ∈ P.initial_pattern.s_base_values := hcs c (by simp)
    have hlt : c < 2 ^ P.initial_pattern.n_base_bits := hP.2.2 c hc
    have hnot : ¬ (1 <<< P.initial_pattern.n_base_bits) ≤ c := by
      rw [Nat.one_shiftLeft]
      omega
    simp only [Propagator.check_components, hc, not_true, if_neg, hnot, if_false]
    · exact ih fun d hd => hcs d (by simp [hd])

/-! ### Shape of the public `is_member` on validated inputs. -/

theorem is_member_eq_ok_of_valid (P : Propagator) {x T : Nat}
    (hT0 : T ≠ 0) (hx : x < 2 ^ T) (hv : P.is_valid_hierarchical_level T = true) :
    P.is_member x T = .ok (P.is_member_recursive (T + 1) x T) := by
  unfold Propagator.is_member
  rw [if_neg hT0, if_neg (by rw [Nat.one_shiftLeft]; omega), if_neg (by simp [hv])]

theorem is_member_ok_elim (P : Propagator) {x T : Nat} {r : Bool}
    (h : P.is_member x T = .ok r) :
    T ≠ 0 ∧ x < 2 ^ T ∧ P.is_valid_hierarchical_level T = true ∧
      P.is_member_recursive (T + 1) x T = r := by
  unfold Propagator.is_member at h
  by_cases h1 : T = 0
  · rw [if_pos h1] at h
    exact absurd h (by simp)
  rw [if_neg h1] at h
  by_cases h2 : (1 <<< T) ≤ x
  · rw [if_pos h2] at h
    exact absurd h (by simp)
  rw [if_neg h2] at h
  by_cases h3 : P.is_valid_hierarchical_level T = true
  · rw [if_neg (by simp [h3])] at h
    rw [Nat.one_shiftLeft] at h2
    exact ⟨h1, by omega, h3, by simpa using h⟩
  · rw [if_pos (by simpa using h3)] at h
    exact absurd h (by simp)

/-! ### Decomposing a member and recomposing the pieces restores the
value and the width. -/

theorem decompose_compose_rec (P : Propagator) (hP : P.initial_pattern.Validated) :
    ∀ k x f g, k < f → k < g →
      x < 2 ^ (P.initial_pattern.n_base_bits * 2 ^ k) →
      P.is_member_recursive (k + 1) x (P.initial_pattern.n_base_bits * 2 ^ k) = true →
      (P.decompose_recursive_collect f x (P.initial_pattern.n_base_bits * 2 ^ k)).length
          = 2 ^ k ∧
      (∀ c ∈ P.decompose_recursive_collect f x (P.initial_pattern.n_base_bits * 2 ^ k),
        c ∈ P.initial_pattern.s_base_values) ∧
      P.compose_recursive g
          (P.decompose_recursive_collect f x (P.initial_pattern.n_base_bits * 2 ^ k)) =
        (x, P.initial_pattern.n_base_bits * 2 ^ k) := by
  have hb : 0 < P.initial_pattern.n_base_bits := hP.1
  intro k
  induction k with
  | zero =>
    intro x f g hf hg hx hmem
    obtain ⟨f, rfl⟩ : ∃ m, f = m + 1 := ⟨f - 1, by omega⟩
    obtain ⟨g, rfl⟩ : ∃ m, g = m + 1 := ⟨g - 1, by omega⟩
    rw [pow_zero, Nat.mul_one] at *
    rw [decompose_recursive_collect_base]
    rw [is_member_recursive_base, decide_eq_true_iff] at hmem
    refine ⟨rfl, by simpa using hmem, ?_⟩
    rw [compose_recursive_one P g [x] rfl]
    rfl
  | succ k ih =>
    intro x f g hf hg hx hmem
    obtain ⟨f, rfl⟩ : ∃ m, f = m + 1 := ⟨f - 1, by omega⟩
    obtain ⟨g, rfl⟩ : ∃ m, g = m + 1 := ⟨g - 1, by omega⟩
    have hsplit : P.initial_pattern.n_base_bits * 2 ^ (k + 1) =
        P.initial_pattern.n_base_bits * 2 ^ k + P.initial_pattern.n_base_bits * 2 ^ k := by
      ring
    have hxu : x >>> (P.initial_pattern.n_base_bits * 2 ^ k) =
        x / 2 ^ (P.initial_pattern.n_base_bits * 2 ^ k) := Nat.shiftRight_eq_div_pow ..
    have hxl : x &&& (1 <<< (P.initial_pattern.n_base_bits * 2 ^ k)) - 1 =
        x % 2 ^ (P.initial_pattern.n_base_bits * 2 ^ k) := and_one_shiftLeft_sub_one ..
    have hub : x / 2 ^ (P.initial_pattern.n_base_bits * 2 ^ k) <
        2 ^ (P.initial_pattern.n_base_bits * 2 ^ k) := by
      refine div_two_pow_lt x _ ?_
      rw [← hsplit]
      exact hx
    have hlb : x % 2 ^ (P.initial_pattern.n_base_bits * 2 ^ k) <
        2 ^ (P.initial_pattern.n_base_bits * 2 ^ k) :=
      Nat.mod_lt _ (Nat.two_pow_pos _)
    rw [is_member_recursive_node _ _ _ _ (level_succ_ne_base _ _ hb), level_succ_half,
      Bool.and_eq_true, hxu, hxl] at hmem
    rw [decompose_recursive_collect_node _ _ _ _ (level_succ_ne_base _ _ hb),
      level_succ_half, hxu, hxl]
    obtain ⟨hulen, humem, hucomp⟩ := ih _ f g (by omega) (by omega) hub hmem.1
    obtain ⟨hllen, hlmem, hlcomp⟩ := ih _ f g (by omega) (by omega) hlb hmem.2
    refine ⟨?_, ?_, ?_⟩
    · rw [List.length_append, hulen, hllen]
      ring
    · intro c hc
      rcases List.mem_append.mp hc with h | h
      · exact humem c h
      · exact hlmem c h
    · have hlen2 : (P.decompose_recursive_collect f
          (x / 2 ^ (P.initial_pattern.n_base_bits * 2 ^ k))
          (P.initial_pattern.n_base_bits * 2 ^ k) ++
        P.decompose_recursive_collect f
          (x % 2 ^ (P.initial_pattern.n_base_bits * 2 ^ k))
          (P.initial_pattern.n_base_bits * 2 ^ k)).length = 2 ^ (k + 1) := by
        rw [List.length_append, hulen, hllen]
        ring
      have hne1 : (P.decompose_recursive_collect f
          (x / 2 ^ (P.initial_pattern.n_base_bits * 2 ^ k))
          (P.initial_pattern.n_base_bits * 2 ^ k) ++
        P.decompose_recursive_collect f
          (x % 2 ^ (P.initial_pattern.n_base_bits * 2 ^ k))
          (P.initial_pattern.n_base_bits * 2 ^ k)).length ≠ 1 := by
        rw [hlen2]
        have := Nat.one_lt_two_pow_iff (n := k + 1)
        omega
      rw [compose_recursive_split _ _ _ hne1]
      have hmid : (P.decompose_recursive_collect f
          (x / 2 ^ (P.initial_pattern.n_base_bits * 2 ^ k))
          (P.initial_pattern.n_base_bits * 2 ^ k) ++
        P.decompose_recursive_collect f
          (x % 2 ^ (P.initial_pattern.n_base_bits * 2 ^ k))
          (P.initial_pattern.n_base_bits * 2 ^ k)).length / 2 = 2 ^ k := by
        rw [hlen2]
        have h2 : (2 : Nat) ^ (k + 1) = 2 ^ k * 2 := by ring
        omega
      rw [hmid, List.take_left' hulen, List.drop_left' hulen, hucomp, hlcomp]
      rw [div_two_pow_lor_mod]
      have : P.initial_pattern.n_base_bits * 2 ^ k * 2 =
          P.initial_pattern.n_base_bits * 2 ^ (k + 1) := by ring
      rw [this]

/-! ### Composing base members and decomposing the result restores the
component sequence. -/

theorem compose_decompose_rec (P : Propagator) (hP : P.initial_pattern.Validated) :
    ∀ k (cs : List Nat) f g, k < f → k < g → cs.length = 2 ^ k →
      (∀ c ∈ cs, c ∈ P.initial_pattern.s_base_values) →
      ∃ v, P.compose_recursive f cs = (v, P.initial_pattern.n_base_bits * 2 ^ k) ∧
        v < 2 ^ (P.initial_pattern.n_base_bits * 2 ^ k) ∧
        P.is_member_recursive (k + 1) v (P.initial_pattern.n_base_bits * 2 ^ k) = true ∧
        P.decompose_recursive_collect g v (P.initial_pattern.n_base_bits * 2 ^ k) = cs := by
  have hb : 0 < P.initial_pattern.n_base_bits := hP.1
  intro k
  induction k with
  | zero =>
    intro cs f g hf hg hlen hcs
    obtain ⟨f, rfl⟩ : ∃ m, f = m + 1 := ⟨f - 1, by omega⟩
    obtain ⟨g, rfl⟩ : ∃ m, g = m + 1 := ⟨g - 1, by omega⟩
    obtain ⟨c, rfl⟩ := List.length_eq_one.mp hlen
    have hc : c ∈ P.initial_pattern.s_base_values := hcs c (by simp)
    refine ⟨c, ?_, ?_, ?_, ?_⟩
    · rw [compose_recursive_one P f [c] rfl]
      simp
    · simpa using hP.2.2 c hc
    · rw [pow_zero, Nat.mul_one, is_member_recursive_base, decide_eq_true_iff]
      exact hc
    · rw [pow_zero, Nat.mul_one, decompose_recursive_collect_base]
  | succ k ih =>
    intro cs f g hf hg hlen hcs
    obtain ⟨f, rfl⟩ : ∃ m, f = m + 1 := ⟨f - 1, by omega⟩
    obtain ⟨g, rfl⟩ : ∃ m, g = m + 1 := ⟨g - 1, by omega⟩
    have h2 : (2 : Nat) ^ (k + 1) = 2 ^ k * 2 := by ring
    have hne : cs.length ≠ 1 := by
      have := Nat.two_pow_pos k
      omega
    have hmid : cs.length / 2 = 2 ^ k := by omega
    have htake : (cs.take (cs.length / 2)).length = 2 ^ k := by
      rw [List.length_take]
      omega
    have hdrop : (cs.drop (cs.length / 2)).length = 2 ^ k := by
      rw [List.length_drop]
      omega
    obtain ⟨u, hucomp, hub, humem, hudec⟩ :=
      ih (cs.take (cs.length / 2)) f g (by omega) (by omega) htake
        (fun c hc => hcs c (List.take_subset _ _ hc))
    obtain ⟨l, hlcomp, hlb, hlmem, hldec⟩ :=
      ih (cs.drop (cs.length / 2)) f g (by omega) (by omega) hdrop
        (fun c hc => hcs c (List.drop_subset _ _ hc))
    set b := P.initial_pattern.n_base_bits with hbdef
    set h := b * 2 ^ k with hdef
    have hv : (u <<< h) ||| l = u * 2 ^ h + l := lor_mul_two_pow_add h u l hlb
    have hvlt : u * 2 ^ h + l < 2 ^ (b * 2 ^ (k + 1)) := by
      have := mul_two_pow_add_lt h u l hub hlb
      have hsum : h + h = b * 2 ^ (k + 1) := by
        rw [hdef]
        ring
      rwa [hsum] at this
    have hvdiv : (u * 2 ^ h + l) / 2 ^ h = u := mul_two_pow_add_div h u l hlb
    have hvmod : (u * 2 ^ h + l) % 2 ^ h = l := mul_two_pow_add_mod h u l hlb
    refine ⟨u * 2 ^ h + l, ?_, hvlt, ?_, ?_⟩
    · rw [compose_recursive_split _ _ _ hne, hucomp, hlcomp, hv]
      have : h * 2 = b * 2 ^ (k + 1) := by
        rw [hdef]
        ring
      rw [this]
    · rw [is_member_recursive_node _ _ _ _ (level_succ_ne_base _ _ hb), level_succ_half,
        ← hdef, Bool.and_eq_true, Nat.shiftRight_eq_div_pow, and_one_shiftLeft_sub_one,
        hvdiv, hvmod]
      exact ⟨humem, hlmem⟩
    · rw [decompose_recursive_collect_node _ _ _ _ (level_succ_ne_base _ _ hb),
        level_succ_half, ← hdef, Nat.shiftRight_eq_div_pow, and_one_shiftLeft_sub_one,
        hvdiv, hvmod, hudec, hldec, List.take_append_drop]

/-! ### Big-endian chunk view of decomposition: the i-th collected leaf
is the i-th base-width chunk of the value, most significant first. -/

theorem bigEndChunks_length (b m x : Nat) : (bigEndChunks b m x).length = m := by
  simp [bigEndChunks]

theorem bigEndChunks_one (b x : Nat) (hx : x < 2 ^ b) : bigEndChunks b 1 x = [x] := by
  simp [bigEndChunks, Nat.mod_eq_of_lt hx]

theorem bigEndChunks_getD (b m x i : Nat) (hi : i < m) :
    (bigEndChunks b m x).getD i 0 = x / 2 ^ (b * (m - 1 - i)) % 2 ^ b := by
  have hi2 : i < (bigEndChunks b m x).length := by
    rw [bigEndChunks_length]
    exact hi
  rw [List.getD_eq_getElem _ _ hi2]
  simp [bigEndChunks]

theorem bigEndChunks_split (b m x : Nat) (hm : 0 < m) :
    bigEndChunks b (2 * m) x =
      bigEndChunks b m (x / 2 ^ (b * m)) ++ bigEndChunks b m (x % 2 ^ (b * m)) := by
  unfold bigEndChunks
  rw [two_mul, List.range_add, List.map_append, List.map_map]
  congr 1
  · refine List.map_congr_left ?_
    intro i hi
    rw [List.mem_range] at hi
    rw [Nat.div_div_eq_div_mul, ← Nat.pow_add]
    have hidx : m + m - 1 - i = m + (m - 1 - i) := by omega
    rw [hidx, Nat.mul_add]
  · refine List.map_congr_left ?_
    intro i hi
    rw [List.mem_range] at hi
    simp only [Function.comp]
    have he : b * m = b * (m - 1 - i) + (b * m - b * (m - 1 - i)) := by
      have : b * (m - 1 - i) ≤ b * m := Nat.mul_le_mul_left b (by omega)
      omega
    have hsplit : (2 : Nat) ^ (b * m) =
        2 ^ (b * (m - 1 - i)) * 2 ^ (b * m - b * (m - 1 - i)) := by
      rw [← Nat.pow_add, ← he]
    rw [hsplit, Nat.mod_mul_right_div_self, Nat.mod_mod_of_dvd]
    · have hidx2 : m + m - 1 - (m + i) = m - 1 - i := by omega
      rw [hidx2]
    · refine pow_dvd_pow 2 ?_
      have h1 : b * (m - 1 - i) + b ≤ b * m := by
        have : (m - 1 - i) + 1 ≤ m := by omega
        calc b * (m - 1 - i) + b = b * ((m - 1 - i) + 1) := by ring
          _ ≤ b * m := Nat.mul_le_mul_left b this
      omega

theorem decompose_recursive_collect_chunks (P : Propagator)
    (hb : 0 < P.initial_pattern.n_base_bits) :
    ∀ k x f, k < f → x < 2 ^ (P.initial_pattern.n_base_bits * 2 ^ k) →
      P.decompose_recursive_collect f x (P.initial_pattern.n_base_bits * 2 ^ k) =
        bigEndChunks P.initial_pattern.n_base_bits (2 ^ k) x := by
  intro k
  induction k with
  | zero =>
    intro x f hf hx
    obtain ⟨f, rfl⟩ : ∃ m, f = m + 1 := ⟨f - 1, by omega⟩
    rw [pow_zero, Nat.mul_one] at *
    rw [decompose_recursive_collect_base, bigEndChunks_one _ _ hx]
  | succ k ih =>
    intro x f hf hx
    obtain ⟨f, rfl⟩ : ∃ m, f = m + 1 := ⟨f - 1, by omega⟩
    have hxu : x / 2 ^ (P.initial_pattern.n_base_bits * 2 ^ k) <
        2 ^ (P.initial_pattern.n_base_bits * 2 ^ k) := by
      refine div_two_pow_lt x _ ?_
      have hsum : P.initial_pattern.n_base_bits * 2 ^ k +
          P.initial_pattern.n_base_bits * 2 ^ k =
          P.initial_pattern.n_base_bits * 2 ^ (k + 1) := by ring
      rwa [hsum]
    have hxl : x % 2 ^ (P.initial_pattern.n_base_bits * 2 ^ k) <
        2 ^ (P.initial_pattern.n_base_bits * 2 ^ k) :=
      Nat.mod_lt _ (Nat.two_pow_pos _)
    rw [decompose_recursive_collect_node _ _ _ _ (level_succ_ne_base _ _ hb),
      level_succ_half, Nat.shiftRight_eq_div_pow, and_one_shiftLeft_sub_one,
      ih _ f (by omega) hxu, ih _ f (by omega) hxl]
    have h2 : (2 : Nat) ^ (k + 1) = 2 * 2 ^ k := by ring
    rw [h2, bigEndChunks_split _ _ _ (Nat.two_pow_pos k)]

/-! ### Random sampling produces members. -/

theorem choose_base_mem (P : Propagator) (order : List Nat) (h : order ≠ []) (d : Nat) :
    P.choose_base order d ∈ order := by
  unfold Propagator.choose_base
  have hlen : 0 < order.length := List.length_pos.mpr h
  rw [List.getD_eq_getElem _ _ (Nat.mod_lt _ hlen)]
  exact List.getElem_mem _

theorem generate_recursive_mem (P : Propagator) (hP : P.initial_pattern.Validated)
    (order : List Nat) (hne : order ≠ [])
    (hmem : ∀ a ∈ order, a ∈ P.initial_pattern.s_base_values) (src : Nat → Nat) :
    ∀ k f pos, k < f →
      (P.generate_random_recursive order src f
          (P.initial_pattern.n_base_bits * 2 ^ k) pos).1 <
        2 ^ (P.initial_pattern.n_base_bits * 2 ^ k) ∧
      P.is_member_recursive (k + 1)
        (P.generate_random_recursive order src f
          (P.initial_pattern.n_base_bits * 2 ^ k) pos).1
        (P.initial_pattern.n_base_bits * 2 ^ k) = true := by
  have hb : 0 < P.initial_pattern.n_base_bits := hP.1
  intro k
  induction k with
  | zero =>
    intro f pos hf
    obtain ⟨f, rfl⟩ : ∃ m, f = m + 1 := ⟨f - 1, by omega⟩
    rw [pow_zero, Nat.mul_one, generate_random_recursive_base]
    have hc : P.choose_base order (src pos) ∈ P.initial_pattern.s_base_values :=
      hmem _ (choose_base_mem P order hne (src pos))
    exact ⟨hP.2.2 _ hc, by rw [is_member_recursive_base, decide_eq_true_iff]; exact hc⟩
  | succ k ih =>
    intro f pos hf
    obtain ⟨f, rfl⟩ : ∃ m, f = m + 1 := ⟨f - 1, by omega⟩
    rw [generate_random_recursive_node _ _ _ _ _ _ (level_succ_ne_base _ _ hb),
      level_succ_half]
    set h := P.initial_pattern.n_base_bits * 2 ^ k with hdef
    set u := P.generate_random_recursive order src f h pos with hu
    set l := P.generate_random_recursive order src f h u.2 with hl
    obtain ⟨hub, humem⟩ := ih f pos (by omega)
    obtain ⟨hlb, hlmem⟩ := ih f u.2 (by omega)
    rw [← hu] at hub humem
    rw [← hl] at hlb hlmem
    have hv : (u.1 <<< h) ||| l.1 = u.1 * 2 ^ h + l.1 := lor_mul_two_pow_add h u.1 l.1 hlb
    have hvlt : u.1 * 2 ^ h + l.1 < 2 ^ (P.initial_pattern.n_base_bits * 2 ^ (k + 1)) := by
      have := mul_two_pow_add_lt h u.1 l.1 hub hlb
      have hsum : h + h = P.initial_pattern.n_base_bits * 2 ^ (k + 1) := by
        rw [hdef]
        ring
      rwa [hsum] at this
    constructor
    · simpa [hv] using hvlt
    · rw [is_member_recursive_node _ _ _ _ (level_succ_ne_base _ _ hb), level_succ_half,
        ← hdef, Bool.and_eq_true, hv, Nat.shiftRight_eq_div_pow,
        and_one_shiftLeft_sub_one, mul_two_pow_add_div h u.1 l.1 hlb,
        mul_two_pow_add_mod h u.1 l.1 hlb]
      exact ⟨humem, hlmem⟩

/-! ### Shapes of the remaining public wrappers. -/

theorem decompose_to_base_eq_ok (P : Propagator) {x T : Nat}
    (h : P.is_member x T = .ok true) :
    P.decompose_to_base x T = .ok (P.decompose_recursive_collect (T + 1) x T) := by
  unfold Propagator.decompose_to_base
  rw [h]

theorem compose_from_base_eq_ok (P : Propagator) (hP : P.initial_pattern.Validated)
    {cs : List Nat} {k : Nat} (hlen : cs.length = 2 ^ k)
    (hmem : ∀ c ∈ cs, c ∈ P.initial_pattern.s_base_values) :
    P.compose_from_base cs = .ok (P.compose_recursive cs.length cs) := by
  unfold Propagator.compose_from_base
  have hpow : is_power_of_two cs.length = true := (is_power_of_two_iff _).mpr ⟨k, hlen⟩
  have hne : cs.length ≠ 0 := by
    have := Nat.two_pow_pos k
    omega
  rw [if_neg (by simp [hpow, hne]), check_components_none P hP cs hmem]

theorem generate_eq_ok (P : Propagator) (hP : P.initial_pattern.Validated)
    {T : Nat} (hv : P.is_valid_hierarchical_level T = true)
    (order : List Nat) (src : Nat → Nat) (pos : Nat) :
    P.generate_random_s_n_member order T src pos =
      .ok (P.generate_random_recursive order src (T + 1) T pos) := by
  unfold Propagator.generate_random_s_n_member
  have hsne : ¬ P.initial_pattern.s_base_values = ∅ :=
    Finset.nonempty_iff_ne_empty.mp hP.2.1
  rw [if_neg (by simp [hv]), if_neg hsne]

/-! ### Shapes of the `PairedEntity` constructors. -/

theorem PairedEntity.new_eq_ok (x n : Nat) (h1 : n ≠ 0) (h2 : x < 2 ^ n) :
    PairedEntity.new x n = .ok ⟨x, 2 ^ n - 1 - x, n⟩ := by
  simp only [PairedEntity.new, Nat.one_shiftLeft]
  rw [if_neg h1, if_neg (by omega : ¬ 2 ^ n ≤ x)]

theorem PairedEntity.new_ok_elim {x n : Nat} {e : PairedEntity}
    (h : PairedEntity.new x n = .ok e) :
    n ≠ 0 ∧ x < 2 ^ n ∧ e = ⟨x, 2 ^ n - 1 - x, n⟩ := by
  simp only [PairedEntity.new, Nat.one_shiftLeft] at h
  by_cases h1 : n = 0
  · rw [if_pos h1] at h
    exact absurd h (by simp)
  rw [if_neg h1] at h
  by_cases h2 : 2 ^ n ≤ x
  · rw [if_pos h2] at h
    exact absurd h (by simp)
  rw [if_neg h2] at h
  refine ⟨h1, by omega, ?_⟩
  injection h with h3
  exact h3.symm

theorem PairedEntity.new_canonical_ok_elim {x n : Nat} {e : PairedEntity}
    (h : PairedEntity.new_canonical_from_x x n = .ok e) :
    n ≠ 0 ∧ x < 2 ^ n ∧
      ((x ≤ 2 ^ n - 1 - x ∧ e = ⟨x, 2 ^ n - 1 - x, n⟩) ∨
       (2 ^ n - 1 - x < x ∧ e = ⟨2 ^ n - 1 - x, x, n⟩)) := by
  simp only [PairedEntity.new_canonical_from_x, Nat.one_shiftLeft] at h
  by_cases h1 : n = 0
  · rw [if_pos h1] at h
    exact absurd h (by simp)
  rw [if_neg h1] at h
  by_cases h2 : 2 ^ n ≤ x
  · rw [if_pos h2] at h
    exact absurd h (by simp)
  rw [if_neg h2] at h
  refine ⟨h1, by omega, ?_⟩
  by_cases h3 : x ≤ 2 ^ n - 1 - x
  · rw [if_pos h3] at h
    injection h with h4
    exact .inl ⟨h3, h4.symm⟩
  · rw [if_neg h3] at h
    injection h with h4
    exact .inr ⟨by omega, h4.symm⟩

theorem PairedEntity.new_assert_eq (v1 v2 n : Nat) (h1 : n ≠ 0) (h2 : v1 < 2 ^ n)
    (h3 : v2 < 2 ^ n) (h4 : v1 + v2 = 2 ^ n - 1) :
    PairedEntity.new_from_pair_assert_canonical v1 v2 n =
      if v1 ≤ v2 then .ok ⟨v1, v2, n⟩ else .ok ⟨v2, v1, n⟩ := by
  simp only [PairedEntity.new_from_pair_assert_canonical, Nat.one_shiftLeft]
  rw [if_neg h1, if_neg (by omega : ¬ 2 ^ n ≤ v1), if_neg (by omega : ¬ 2 ^ n ≤ v2),
    if_neg (by omega : ¬ v1 + v2 ≠ 2 ^ n - 1)]

theorem PairedEntity.new_assert_ok_elim {v1 v2 n : Nat} {e : PairedEntity}
    (h : PairedEntity.new_from_pair_assert_canonical v1 v2 n = .ok e) :
    n ≠ 0 ∧ v1 < 2 ^ n ∧ v2 < 2 ^ n ∧ v1 + v2 = 2 ^ n - 1 ∧
      ((v1 ≤ v2 ∧ e = ⟨v1, v2, n⟩) ∨ (v2 < v1 ∧ e = ⟨v2, v1, n⟩)) := by
  simp only [PairedEntity.new_from_pair_assert_canonical, Nat.one_shiftLeft] at h
  by_cases h1 : n = 0
  · rw [if_pos h1] at h
    exact absurd h (by simp)
  rw [if_neg h1] at h
  by_cases h2 : 2 ^ n ≤ v1
  · rw [if_pos h2] at h
    exact absurd h (by simp)
  rw [if_neg h2] at h
  by_cases h3 : 2 ^ n ≤ v2
  · rw [if_pos h3] at h
    exact absurd h (by simp)
  rw [if_neg h3] at h
  by_cases h4 : v1 + v2 ≠ 2 ^ n - 1
  · rw [if_pos h4] at h
    exact absurd h (by simp)
  rw [if_neg h4] at h
  refine ⟨h1, by omega, by omega, by omega, ?_⟩
  by_cases h5 : v1 ≤ v2
  · rw [if_pos h5] at h
    injection h with h6
    exact .inl ⟨h5, h6.symm⟩
  · rw [if_neg h5] at h
    injection h with h6
    exact .inr ⟨by omega, h6.symm⟩

/-- C1: decomposition and composition are exact inverses.  For a
validated pattern, any `x` with `is_member x T = Ok(true)` decomposes to
a sequence that composes back to exactly `(x, T)`; conversely any
sequence of base members whose length is a non-zero power of two
composes to a value and width that decompose back to exactly that
sequence. -/
theorem C1_round_trip :
    (∀ (P : Propagator) (x T : Nat), P.initial_pattern.Validated →
      P.is_member x T = .ok true →
      ∃ cs, P.decompose_to_base x T = .ok cs ∧
        P.compose_from_base cs = .ok (x, T)) ∧
    (∀ (P : Propagator) (cs : List Nat), P.initial_pattern.Validated →
      (∀ c ∈ cs, c ∈ P.initial_pattern.s_base_values) →
      (∃ k, cs.length = 2 ^ k) →
      ∃ v w, P.compose_from_base cs = .ok (v, w) ∧
        P.decompose_to_base v w = .ok cs) := by
  constructor
  · intro P x T hP hm
    obtain ⟨hT0, hx, hv, hrec⟩ := is_member_ok_elim P hm
    obtain ⟨k, rfl⟩ := valid_level_exists P T hv
    have hb : 0 < P.initial_pattern.n_base_bits := hP.1
    have hkf : k < P.initial_pattern.n_base_bits * 2 ^ k + 1 := lt_exp_fuel _ _ hb
    have hrec2 : P.is_member_recursive (k + 1) x
        (P.initial_pattern.n_base_bits * 2 ^ k) = true := by
      rw [is_member_recursive_fuel P hb k x (k + 1)
        (P.initial_pattern.n_base_bits * 2 ^ k + 1) (by omega) hkf]
      exact hrec
    obtain ⟨hlen, hmem, hcomp⟩ :=
      decompose_compose_rec P hP k x (P.initial_pattern.n_base_bits * 2 ^ k + 1)
        (2 ^ k) hkf (Nat.lt_two_pow k) hx hrec2
    refine ⟨_, decompose_to_base_eq_ok P hm, ?_⟩
    rw [compose_from_base_eq_ok P hP hlen hmem, hlen, hcomp]
  · intro P cs hP hmem hpow
    obtain ⟨k, hlen⟩ := hpow
    have hb : 0 < P.initial_pattern.n_base_bits := hP.1
    have hkf : k < P.initial_pattern.n_base_bits * 2 ^ k + 1 := lt_exp_fuel _ _ hb
    obtain ⟨v, hcomp, hvb, hvmem, hvdec⟩ :=
      compose_decompose_rec P hP k cs (2 ^ k)
        (P.initial_pattern.n_base_bits * 2 ^ k + 1) (Nat.lt_two_pow k) hkf hlen hmem
    have hT0 : P.initial_pattern.n_base_bits * 2 ^ k ≠ 0 :=
      (Nat.mul_pos hb (Nat.two_pow_pos k)).ne'
    have hvrec : P.is_member_recursive (P.initial_pattern.n_base_bits * 2 ^ k + 1) v
        (P.initial_pattern.n_base_bits * 2 ^ k) = true := by
      rw [is_member_recursive_fuel P hb k v
        (P.initial_pattern.n_base_bits * 2 ^ k + 1) (k + 1) hkf (by omega)]
      exact hvmem
    have hm2 : P.is_member v (P.initial_pattern.n_base_bits * 2 ^ k) = .ok true := by
      rw [is_member_eq_ok_of_valid P hT0 hvb (valid_level_of_exp P k), hvrec]
    refine ⟨v, P.initial_pattern.n_base_bits * 2 ^ k, ?_, ?_⟩
    · rw [compose_from_base_eq_ok P hP hlen hmem, hlen, hcomp]
    · rw [decompose_to_base_eq_ok P hm2, hvdec]

/-- Witness for C1 at the worked example: `x = 3`, `T = 4` over the
pattern `{0, 3}` at base width 2. -/
theorem C1_round_trip_witness :
    ∃ cs, exampleProp.decompose_to_base 3 4 = .ok cs ∧
      exampleProp.compose_from_base cs = .ok (3, 4) :=
  C1_round_trip.1 exampleProp 3 4 (by decide) (by decide)

/-- C2: for a valid level `T` and `x < 2 ^ T`, `is_member` returns
`Ok(b)` where `b` agrees with the recursive reference definition
(`MemberProp`): base case is direct set membership, otherwise both the
upper and the lower half are members at `T / 2`.  The worked examples
with base `{0, 3}` at width 2 follow. -/
theorem C2_is_member_recurrence :
    (∀ (P : Propagator), P.initial_pattern.Validated → ∀ T x,
      P.is_valid_hierarchical_level T = true → x < 2 ^ T →
      ∃ r, P.is_member x T = .ok r ∧ (r = true ↔ MemberProp P x T)) ∧
    exampleProp.is_member 0 4 = .ok true ∧
    exampleProp.is_member 3 4 = .ok true ∧
    exampleProp.is_member 1 4 = .ok false := by
  refine ⟨?_, by decide, by decide, by decide⟩
  intro P hP T x hv hx
  have hb : 0 < P.initial_pattern.n_base_bits := hP.1
  obtain ⟨k, rfl⟩ := valid_level_exists P T hv
  have hT0 : P.initial_pattern.n_base_bits * 2 ^ k ≠ 0 :=
    (Nat.mul_pos hb (Nat.two_pow_pos k)).ne'
  exact ⟨_, is_member_eq_ok_of_valid P hT0 hx hv,
    is_member_recursive_iff P hb k x _ (lt_exp_fuel _ _ hb)⟩

/-- Witness for C2 at `x = 3`, `T = 4`. -/
theorem C2_is_member_recurrence_witness :
    ∃ r, exampleProp.is_member 3 4 = .ok r ∧
      (r = true ↔ MemberProp exampleProp 3 4) :=
  C2_is_member_recurrence.1 exampleProp (by decide) 4 3 (by decide) (by decide)

/-- C3 counterexample: at the invalid nonzero level `T = 3` with
`x = 8 ≥ 2 ^ 3`, `is_member` reports `ValueTooLargeForNBits`, not
`InvalidHierarchicalLevel` as the claim requires, because the
implementation performs the range check before the level-validity
check for nonzero `T`. -/
theorem C3_counterexample :
    exampleProp.is_valid_hierarchical_level 3 = false ∧
    exampleProp.is_member 8 3 = .error (.ValueTooLargeForNBits 8 3) ∧
    exampleProp.is_member 8 3 ≠
      .error (.InvalidHierarchicalLevel 3 exampleProp.initial_pattern.n_base_bits) := by
  refine ⟨by decide, by decide, by decide⟩

/-- C3 (amended): `is_member` reports `InvalidHierarchicalLevel` for
`T = 0` regardless of `x`; for nonzero `T` the range check comes first,
so `x ≥ 2 ^ T` yields `ValueTooLargeForNBits` even when `T` is not a
valid level, and `InvalidHierarchicalLevel` is reported for an invalid
nonzero `T` only when `x < 2 ^ T`. -/
theorem C3_error_precedence :
    ∀ (P : Propagator) (x T : Nat),
      (T = 0 → P.is_member x T =
        .error (.InvalidHierarchicalLevel T P.initial_pattern.n_base_bits)) ∧
      (T ≠ 0 → 2 ^ T ≤ x →
        P.is_member x T = .error (.ValueTooLargeForNBits x T)) ∧
      (T ≠ 0 → x < 2 ^ T → P.is_valid_hierarchical_level T = false →
        P.is_member x T =
          .error (.InvalidHierarchicalLevel T P.initial_pattern.n_base_bits)) := by
  intro P x T
  refine ⟨?_, ?_, ?_⟩
  · intro h
    unfold Propagator.is_member
    rw [if_pos h]
  · intro h1 h2
    unfold Propagator.is_member
    rw [if_neg h1, if_pos (by rw [Nat.one_shiftLeft]; omega)]
  · intro h1 h2 h3
    unfold Propagator.is_member
    rw [if_neg h1, if_neg (by rw [Nat.one_shiftLeft]; omega), if_pos (by simp [h3])]

/-- Witness for the amended C3: the counterexample input hits the
range-check clause. -/
theorem C3_error_precedence_witness :
    exampleProp.is_member 8 3 = .error (.ValueTooLargeForNBits 8 3) :=
  (C3_error_precedence exampleProp 8 3).2.1 (by decide) (by decide)

/-- C4: with the Propagator configuration fixed (the base set `{0, 3}`
at width 2) and the randomness stream fixed (constantly 0), the sampled
value still depends on the enumeration order of the base set, which for
the Rust `HashSet` is not determined by the set and varies between
runs: the two enumerations of the same set yield 0 and 3. -/
theorem C4_hashset_order_dependence :
    ([0, 3] : List Nat).toFinset = ([3, 0] : List Nat).toFinset ∧
    exampleProp.generate_random_s_n_member [0, 3] 2 (fun _ => 0) 0 = .ok (0, 1) ∧
    exampleProp.generate_random_s_n_member [3, 0] 2 (fun _ => 0) 0 = .ok (3, 1) := by
  refine ⟨by decide, by decide, by decide⟩

/-- C5: closure of sampling.  Over a validated pattern, for every valid
level `T`, every enumeration of the base set and every randomness
stream, the sampled value is a member: `is_member v T = Ok(true)`. -/
theorem C5_closure (P : Propagator) (hP : P.initial_pattern.Validated)
    (order : List Nat) (hne : order ≠ [])
    (hmem : ∀ a ∈ order, a ∈ P.initial_pattern.s_base_values)
    (T : Nat) (hv : P.is_valid_hierarchical_level T = true)
    (src : Nat → Nat) (pos : Nat) :
    ∃ v q, P.generate_random_s_n_member order T src pos = .ok (v, q) ∧
      P.is_member v T = .ok true := by
  have hb : 0 < P.initial_pattern.n_base_bits := hP.1
  obtain ⟨k, rfl⟩ := valid_level_exists P T hv
  have hT0 : P.initial_pattern.n_base_bits * 2 ^ k ≠ 0 :=
    (Nat.mul_pos hb (Nat.two_pow_pos k)).ne'
  have hkf : k < P.initial_pattern.n_base_bits * 2 ^ k + 1 := lt_exp_fuel _ _ hb
  obtain ⟨hvb, hvmem⟩ := generate_recursive_mem P hP order hne hmem src k
    (P.initial_pattern.n_base_bits * 2 ^ k + 1) pos hkf
  refine ⟨(P.generate_random_recursive order src
      (P.initial_pattern.n_base_bits * 2 ^ k + 1)
      (P.initial_pattern.n_base_bits * 2 ^ k) pos).1,
    (P.generate_random_recursive order src
      (P.initial_pattern.n_base_bits * 2 ^ k + 1)
      (P.initial_pattern.n_base_bits * 2 ^ k) pos).2, ?_, ?_⟩
  · rw [generate_eq_ok P hP hv order src pos]
  rw [is_member_eq_ok_of_valid P hT0 hvb hv]
  rw [is_member_recursive_fuel P hb k _
    (P.initial_pattern.n_base_bits * 2 ^ k + 1) (k + 1) hkf (by omega), hvmem]

/-- Witness for C5 at `T = 4` over the worked-example pattern with the
identity stream. -/
theorem C5_closure_witness :
    ∃ v q, exampleProp.generate_random_s_n_member [0, 3] 4 (fun p => p) 0 =
        .ok (v, q) ∧
      exampleProp.is_member v 4 = .ok true :=
  C5_closure exampleProp (by decide) [0, 3] (by decide) (by decide) 4 (by decide)
    (fun p => p) 0

/-- C6: decomposition yields exactly `T / n_base_bits` leaves, and the
i-th leaf is the i-th base-width chunk of `x` counted from the most
significant end — the arithmetic form of pre-order collection with the
upper half before the lower half at every level.  The worked examples
follow. -/
theorem C6_decomposition_order :
    (∀ (P : Propagator) (x T : Nat), P.initial_pattern.Validated →
      P.is_member x T = .ok true →
      ∃ l, P.decompose_to_base x T = .ok l ∧
        l.length = T / P.initial_pattern.n_base_bits ∧
        ∀ i, i < l.length → l.getD i 0 =
          x / 2 ^ (P.initial_pattern.n_base_bits * (l.length - 1 - i)) %
            2 ^ P.initial_pattern.n_base_bits) ∧
    exampleProp.decompose_to_base 0 4 = .ok [0, 0] ∧
    exampleProp.decompose_to_base 3 4 = .ok [0, 3] := by
  refine ⟨?_, by decide, by decide⟩
  intro P x T hP hm
  obtain ⟨hT0, hx, hv, hrec⟩ := is_member_ok_elim P hm
  obtain ⟨k, rfl⟩ := valid_level_exists P _ hv
  have hb : 0 < P.initial_pattern.n_base_bits := hP.1
  have hchunks := decompose_recursive_collect_chunks P hb k x
    (P.initial_pattern.n_base_bits * 2 ^ k + 1) (lt_exp_fuel _ _ hb) hx
  refine ⟨_, decompose_to_base_eq_ok P hm, ?_, ?_⟩
  · rw [hchunks, bigEndChunks_length, Nat.mul_div_cancel_left _ hb]
  · intro i hi
    rw [hchunks] at hi
    rw [bigEndChunks_length] at hi
    rw [hchunks, bigEndChunks_length,
      bigEndChunks_getD _ _ _ i hi]

/-- Witness for C6 at `x = 3`, `T = 4`. -/
theorem C6_decomposition_order_witness :
    ∃ l, exampleProp.decompose_to_base 3 4 = .ok l ∧
      l.length = 4 / exampleProp.initial_pattern.n_base_bits ∧
      ∀ i, i < l.length → l.getD i 0 =
        3 / 2 ^ (exampleProp.initial_pattern.n_base_bits * (l.length - 1 - i)) %
          2 ^ exampleProp.initial_pattern.n_base_bits :=
  C6_decomposition_order.1 exampleProp 3 4 (by decide) (by decide)

/-- C7: the level-validity gate accepts `T` exactly when
`T = n_base_bits`, or `T % n_base_bits = 0` and `T / n_base_bits` is a
power of two; equivalently exactly when `T = n_base_bits * 2 ^ k` for
some `k`.  With `n_base_bits = 4` the widths 4, 8, 16, 32 are valid and
0, 5, 6, 12 are invalid. -/
theorem C7_level_validity :
    (∀ (P : Propagator) (T : Nat),
      P.is_valid_hierarchical_level T = true ↔
        (T = P.initial_pattern.n_base_bits ∨
          (T % P.initial_pattern.n_base_bits = 0 ∧
            ∃ j, T / P.initial_pattern.n_base_bits = 2 ^ j))) ∧
    (∀ (P : Propagator) (T : Nat),
      P.is_valid_hierarchical_level T = true ↔
        ∃ k, T = P.initial_pattern.n_base_bits * 2 ^ k) ∧
    (examplePropB4.is_valid_hierarchical_level 4 = true ∧
     examplePropB4.is_valid_hierarchical_level 8 = true ∧
     examplePropB4.is_valid_hierarchical_level 16 = true ∧
     examplePropB4.is_valid_hierarchical_level 32 = true) ∧
    (examplePropB4.is_valid_hierarchical_level 0 = false ∧
     examplePropB4.is_valid_hierarchical_level 5 = false ∧
     examplePropB4.is_valid_hierarchical_level 6 = false ∧
     examplePropB4.is_valid_hierarchical_level 12 = false) := by
  refine ⟨?_, fun P T => is_valid_hierarchical_level_iff P T, by decide, by decide⟩
  intro P T
  rw [is_valid_hierarchical_level_iff]
  constructor
  · rintro ⟨k, rfl⟩
    by_cases hb0 : P.initial_pattern.n_base_bits = 0
    · left
      rw [hb0, Nat.zero_mul]
    · right
      exact ⟨Nat.mul_mod_right _ _, k, Nat.mul_div_cancel_left _ (by omega)⟩
  · rintro (rfl | ⟨hmod, j, hj⟩)
    · exact ⟨0, by ring⟩
    · by_cases hb0 : P.initial_pattern.n_base_bits = 0
      · have hT : T = 0 := by rwa [hb0, Nat.mod_zero] at hmod
        exact ⟨0, by rw [hT, hb0, Nat.zero_mul]⟩
      · refine ⟨j, ?_⟩
        rw [← hj]
        have := Nat.div_add_mod T P.initial_pattern.n_base_bits
        omega

/-- Witness for C7 instantiating the second characterization at the
base-width-4 pattern and `T = 8`. -/
theorem C7_level_validity_witness :
    examplePropB4.is_valid_hierarchical_level 8 = true ↔
      ∃ k, 8 = examplePropB4.initial_pattern.n_base_bits * 2 ^ k :=
  C7_level_validity.2.1 examplePropB4 8

/-- C8: every `PairedEntity` returned by any of the three constructors
satisfies `x < 2 ^ n_bits`, `x_prime < 2 ^ n_bits` and
`x + x_prime = 2 ^ n_bits - 1`; `new` succeeds on every in-range input
and returns `x` unchanged with `x_prime = 2 ^ n_bits - 1 - x`, and the
two canonical constructors additionally guarantee `x ≤ x_prime`. -/
theorem C8_entity_invariants :
    ∀ x n_bits : Nat,
      (∀ e, PairedEntity.new x n_bits = .ok e →
        e.Invariant ∧ e.x = x ∧ e.x_prime = 2 ^ n_bits - 1 - x ∧ e.n_bits = n_bits) ∧
      (0 < n_bits → x < 2 ^ n_bits → ∃ e, PairedEntity.new x n_bits = .ok e) ∧
      (∀ e, PairedEntity.new_canonical_from_x x n_bits = .ok e →
        e.Invariant ∧ e.x ≤ e.x_prime) ∧
      (∀ y e, PairedEntity.new_from_pair_assert_canonical x y n_bits = .ok e →
        e.Invariant ∧ e.x ≤ e.x_prime) := by
  intro x n
  have h2p : 0 < 2 ^ n := Nat.two_pow_pos n
  refine ⟨?_, ?_, ?_, ?_⟩
  · intro e he
    obtain ⟨h1, h2, rfl⟩ := PairedEntity.new_ok_elim he
    exact ⟨⟨by simpa using h2, by simp; omega, by simp; omega⟩, rfl, rfl, rfl⟩
  · intro hn hx
    exact ⟨_, PairedEntity.new_eq_ok x n (by omega) hx⟩
  · intro e he
    obtain ⟨h1, h2, hcase⟩ := PairedEntity.new_canonical_ok_elim he
    rcases hcase with ⟨hle, rfl⟩ | ⟨hlt, rfl⟩
    · exact ⟨⟨by simpa using h2, by simp; omega, by simp; omega⟩, by simpa using hle⟩
    · exact ⟨⟨by simp; omega, by simpa using h2, by simp; omega⟩, by simp; omega⟩
  · intro y e he
    obtain ⟨h1, h2, h3, h4, hcase⟩ := PairedEntity.new_assert_ok_elim he
    rcases hcase with ⟨hle, rfl⟩ | ⟨hlt, rfl⟩
    · exact ⟨⟨by simpa using h2, by simpa using h3, by simpa using h4⟩,
        by simpa using hle⟩
    · exact ⟨⟨by simpa using h3, by simpa using h2, by simp; omega⟩, by simp; omega⟩

/-- Witness for C8 at `x = 3`, `n_bits = 4`: `new` returns
`⟨3, 12, 4⟩` and the invariant holds. -/
theorem C8_entity_invariants_witness :
    PairedEntity.Invariant ⟨3, 12, 4⟩ ∧ (⟨3, 12, 4⟩ : PairedEntity).x = 3 ∧
      (⟨3, 12, 4⟩ : PairedEntity).x_prime = 2 ^ 4 - 1 - 3 ∧
      (⟨3, 12, 4⟩ : PairedEntity).n_bits = 4 :=
  (C8_entity_invariants 3 4).1 ⟨3, 12, 4⟩ (by decide)

/-- C9: once the top-level validation of an operation has passed, the
recursive helpers are total.  Every valid level is
`n_base_bits * 2 ^ k` with `k = log2 (T / n_base_bits)` halvings to the
base case; halving an above-base valid level yields a valid level; and
all three fuelled helpers are independent of any fuel beyond `k`, i.e.
the recursion terminates within `k + 1` steps and produces its value
with no error path. -/
theorem C9_helpers_total (P : Propagator) (hP : P.initial_pattern.Validated)
    (T : Nat) (hv : P.is_valid_hierarchical_level T = true) :
    ∃ k, T = P.initial_pattern.n_base_bits * 2 ^ k ∧
      T / P.initial_pattern.n_base_bits = 2 ^ k ∧
      (T ≠ P.initial_pattern.n_base_bits →
        P.is_valid_hierarchical_level (T / 2) = true) ∧
      ∀ f, k < f →
        (∀ x, P.is_member_recursive f x T = P.is_member_recursive (k + 1) x T) ∧
        (∀ x, P.decompose_recursive_collect f x T =
          P.decompose_recursive_collect (k + 1) x T) ∧
        (∀ order src pos,
          P.generate_random_recursive order src f T pos =
            P.generate_random_recursive order src (k + 1) T pos) := by
  have hb : 0 < P.initial_pattern.n_base_bits := hP.1
  obtain ⟨k, rfl⟩ := valid_level_exists P T hv
  refine ⟨k, rfl, Nat.mul_div_cancel_left _ hb, ?_, ?_⟩
  · intro hne
    cases k with
    | zero => exact absurd (by ring) hne
    | succ k =>
      rw [level_succ_half]
      exact valid_level_of_exp P k
  · intro f hf
    refine ⟨?_, ?_, ?_⟩
    · intro x
      exact is_member_recursive_fuel P hb k x f (k + 1) hf (by omega)
    · intro x
      exact decompose_recursive_collect_fuel P hb k x f (k + 1) hf (by omega)
    · intro order src pos
      exact generate_random_recursive_fuel P hb order src k pos f (k + 1) hf (by omega)

/-- Witness for C9 at `T = 4` over the worked-example pattern. -/
theorem C9_helpers_total_witness :
    ∃ k, 4 = exampleProp.initial_pattern.n_base_bits * 2 ^ k ∧
      4 / exampleProp.initial_pattern.n_base_bits = 2 ^ k ∧
      (4 ≠ exampleProp.initial_pattern.n_base_bits →
        exampleProp.is_valid_hierarchical_level (4 / 2) = true) ∧
      ∀ f, k < f →
        (∀ x, exampleProp.is_member_recursive f x 4 =
          exampleProp.is_member_recursive (k + 1) x 4) ∧
        (∀ x, exampleProp.decompose_recursive_collect f x 4 =
          exampleProp.decompose_recursive_collect (k + 1) x 4) ∧
        (∀ order src pos,
          exampleProp.generate_random_recursive order src f 4 pos =
            exampleProp.generate_random_recursive order src (k + 1) 4 pos) :=
  C9_helpers_total exampleProp (by decide) 4 (by decide)

/-- C10: on complementary in-range inputs,
`new_from_pair_assert_canonical` is symmetric in its first two
arguments. -/
theorem C10_assert_canonical_symmetric (n v1 v2 : Nat) (hn : 0 < n)
    (h1 : v1 < 2 ^ n) (h2 : v2 < 2 ^ n) (hc : v1 + v2 = 2 ^ n - 1) :
    PairedEntity.new_from_pair_assert_canonical v1 v2 n =
      PairedEntity.new_from_pair_assert_canonical v2 v1 n := by
  rw [PairedEntity.new_assert_eq v1 v2 n (by omega) h1 h2 hc,
    PairedEntity.new_assert_eq v2 v1 n (by omega) h2 h1 (by omega)]
  by_cases h : v1 ≤ v2
  · rw [if_pos h]
    by_cases h' : v2 ≤ v1
    · rw [if_pos h']
      have hvv : v1 = v2 := Nat.le_antisymm h h'
      rw [hvv]
    · rw [if_neg h']
  · rw [if_neg h, if_pos (by omega)]

/-- Witness for C10 at `n = 2`, complements 0 and 3. -/
theorem C10_assert_canonical_symmetric_witness :
    PairedEntity.new_from_pair_assert_canonical 0 3 2 =
      PairedEntity.new_from_pair_assert_canonical 3 0 2 :=
  C10_assert_canonical_symmetric 2 0 3 (by decide) (by decide) (by decide) (by decide)

example : examplePattern.Validated := by decide
example : exampleProp.is_member 3 4 = .ok true := by decide
example : exampleProp.is_member 1 4 = .ok false := by decide
example : exampleProp.is_member 0 4 = .ok true := by decide
example : exampleProp.decompose_to_base 3 4 = .ok [0, 3] := by decide
example : exampleProp.compose_from_base [0, 3] = .ok (3, 4) := by decide
example : exampleProp.compose_from_base [0, 1, 3] = .error (.InvalidComponentCount 3) := by decide
example : examplePropB4.is_valid_hierarchical_level 32 = true := by decide
example : examplePropB4.is_valid_hierarchical_level 12 = false := by decide
example : PairedEntity.new 3 4 = .ok ⟨3, 12, 4⟩ := by decide
example : exampleProp.generate_random_s_n_member [0, 3] 4 (fun _ => 0) 0 = .ok (0, 2) := by decide
example : exampleProp.generate_random_s_n_member [0, 3] 4 (fun p => p) 0 = .ok (3, 2) := by decide
